import Mathlib

/-!
Verification development for the third-party-data GraphQL fetch script
(src/Python/ThirdPartyData/GetAllThirdPartyDataForPartnerGQL.py).

The Python source is shallowly embedded below.  Pure helpers become Lean
functions; the network is an explicit oracle argument; raised Python
exceptions become Except errors; the retry loop and the multi-alias
pagination loop become fuel-indexed recursions whose fuel mirrors the
loop bounds of the source.
-/

namespace GQL

/-! ## JSON values and Python dict lookups -/

/-- A JSON value, as produced by the Python json.loads parser.  Used to model
the response body handled by the transport function. -/
inductive Json where
  | null
  | bool (b : Bool)
  | num (n : Int)
  | str (s : String)
  | arr (xs : List Json)
  | obj (fields : List (String × Json))

/-- Python exceptions that the embedded helpers can raise. -/
inductive PyError where
  | valueError (msg : String)
  | attributeError
  | jsonDecodeError
deriving DecidableEq, Repr

/-- Lookup of a key in a JSON object field list, with a default, mirroring
the Python expression fields.get(key, default) on a dict. -/
def lookupD (fields : List (String × Json)) (key : String) (d : Json) : Json :=
  ((fields.find? (fun kv => kv.1 = key)).map Prod.snd).getD d

/-- Python content.get(key, default): succeeds only when the receiver is a
dict (a JSON object); any other receiver raises AttributeError. -/
def dictGet (j : Json) (key : String) (d : Json) : Except PyError Json :=
  match j with
  | .obj fields => .ok (lookupD fields key d)
  | _ => .error .attributeError

/-! ## Transport: execute_gql_request -/

/-- The raw HTTP response body as seen by execute_gql_request: empty (zero
length), malformed (nonempty but not parseable as JSON), or a parsed JSON
value. -/
inductive Body where
  | empty
  | malformed
  | json (j : Json)

/-- Python json.loads applied to the body when nonempty, else the empty dict:
content = json.loads(response.content) if len(response.content) > 0 else
an empty dict.  A malformed body raises JSONDecodeError. -/
def parseBody : Body → Except PyError Json
  | .empty => .ok (.obj [])
  | .malformed => .error .jsonDecodeError
  | .json j => .ok j

/-- The GqlResponse class of the source: parsed data and error list. -/
structure GqlResponse where
  data : Json
  errors : Json

/-- Embedding of execute_gql_request.  The HTTP layer is abstracted as the
pair of the ok flag (response.ok) and the response body; the function
parses the body, extracts the data and errors fields with their defaults,
and returns the ok flag with the GqlResponse.  An unparseable or non-dict
body makes the extraction raise, which the Except models. -/
def execute_gql_request (ok : Bool) (body : Body) : Except PyError (Bool × GqlResponse) := do
  let content ← parseBody body
  let resp_data ← dictGet content "data" (.obj [])
  let errors ← dictGet content "errors" (.arr [])
  return (ok, { data := resp_data, errors := errors })

/-! ## Retry wrapper: execute_with_retries -/

/-- What the retry wrapper observes of one transport response:
response.data is either a dict (which may or may not hold the key
"partner", whose value has opaque type β) or a non-dict value, on which
data.get("partner", default) raises AttributeError. -/
inductive RData (β : Type) where
  | dict (partner : Option β)
  | nonDict
deriving DecidableEq, Repr

/-- The exceptions raised by execute_with_retries: the terminal message
naming the partner id and the retry bound, and the unreachable final
raise after the while loop. -/
inductive RetryErr where
  | exhausted (partner_id : String) (max_retries : Nat)
  | unexpected (partner_id : String)
deriving DecidableEq, Repr

/-- The loop body of execute_with_retries.  The transport oracle maps the
attempt index try_count to the pair (request_success, response.data).
The fuel argument equals max_retries + 1 - try_count, the number of loop
iterations the guard try_count <= max_retries still allows; fuel 0 is the
guard failing, i.e. the final unreachable raise.  The result pairs the
Python outcome (returned value or raised exception) with the number of
transport calls made.  A returned value of none models the Python return
of the default empty dict when the "partner" key is absent. -/
def execute_with_retries_aux (transport : Nat → Bool × RData β) (pid : String)
    (max_retries : Nat) : Nat → Nat → Except RetryErr (Option β) × Nat
  | _, 0 => (.error (.unexpected pid), 0)
  | try_count, fuel + 1 =>
    let tr := transport try_count
    let retryStep : Except RetryErr (Option β) × Nat :=
      if try_count + 1 > max_retries then
        (.error (.exhausted pid max_retries), 1)
      else
        let pr := execute_with_retries_aux transport pid max_retries (try_count + 1) fuel
        (pr.1, pr.2 + 1)
    if tr.1 then
      match tr.2 with
      | .dict partner => (.ok partner, 1)
      | .nonDict => retryStep
    else retryStep

/-- Embedding of execute_with_retries: run the loop from try_count = 0 with
the full budget of max_retries + 1 iterations. -/
def execute_with_retries (transport : Nat → Bool × RData β) (pid : String)
    (max_retries : Nat) : Except RetryErr (Option β) × Nat :=
  execute_with_retries_aux transport pid max_retries 0 (max_retries + 1)

/-- An attempt counts as successful for the retry wrapper exactly when the
transport reports ok and the response data is a dict, so that the
extraction data.get("partner", default) returns instead of raising. -/
def succAt (transport : Nat → Bool × RData β) (n : Nat) : Prop :=
  (transport n).1 = true ∧ ∃ p, (transport n).2 = RData.dict p

/-! ## Provider discovery: get_user_third_party_data_providers -/

/-- A node of the thirdPartyDataProviders connection, reduced to what the
set comprehension reads: the value of node.get("id"), where none models a
missing "id" key or a null value. -/
structure ProviderNode where
  id : Option String
deriving DecidableEq, Repr

/-- Embedding of the set comprehension in get_user_third_party_data_providers:
collect node["id"] for every node whose node.get("id") is truthy (present,
non-null and not the empty string), with set semantics.  Python set
iteration order is unspecified; dedup is one order of the same set, and
only order-independent properties are asserted about the result. -/
def get_user_third_party_data_providers (nodes : List ProviderNode) : List String :=
  ((nodes.filterMap ProviderNode.id).filter (fun s => !(s = ""))).dedup

/-! ## Partitioner: partition_list -/

/-- Embedding of partition_list: raise ValueError when the size is not
positive, else return the slices strings[i : i + partition_size] for i in
range(0, len(strings), partition_size).  The index arithmetic is Nat
after the positivity guard; Python range(0, L, n) has (L + n - 1) / n
elements. -/
def partition_list (strings : List α) (partition_size : Int) :
    Except PyError (List (List α)) :=
  if partition_size ≤ 0 then
    .error (.valueError "Partition size must be greater than 0.")
  else
    let n := partition_size.toNat
    .ok ((List.range ((strings.length + n - 1) / n)).map
      (fun k => (strings.drop (k * n)).take n))

/-- Recursive characterization of the slicing comprehension, used to prove
the partition properties by induction: chunk size is m + 1, so the
recursion is well founded without a positivity side condition. -/
def chunksAux (m : Nat) : List α → List (List α)
  | [] => []
  | a :: l => (a :: l.take m) :: chunksAux m (l.drop m)
termination_by l => l.length
decreasing_by
  simp only [List.length_drop, List.length_cons]
  omega

/-! ## Multi-alias paginated fetch: get_partner_third_party_data

The loop state of the source is the pair of dicts alias_has_more_map and
alias_cursor_map, both keyed by the aliases mygroup_{i+1}_alias in group
order; the embedding keys them positionally, as one list of per-alias
records aligned with the partitioned provider list. -/

/-- One aliased page of a response: the alias's nodes list, and the
pageInfo fields hasNextPage and endCursor.  The node and cursor types are
opaque parameters. -/
structure Page (α κ : Type) where
  nodes : List α
  hasNextPage : Bool
  endCursor : Option κ
deriving DecidableEq, Repr

/-- Per-alias loop state: the entries of alias_has_more_map and
alias_cursor_map for one alias. -/
structure AliasSt (κ : Type) where
  hasMore : Bool
  cursor : Option κ
deriving DecidableEq, Repr

/-- The per-alias body of the response-processing loop.  An active alias
reads its page (a missing alias in the response dict defaults to nodes = [],
hasNextPage = false, endCursor = null, via the chained .get defaults of the
source), emits its nodes, and stores the new hasNextPage and endCursor.
An alias that is not active is not visited by the loop, so its state is
unchanged and it emits nothing. -/
def procAlias (st : AliasSt κ) (resp : Option (Page α κ)) : AliasSt κ × List α :=
  if st.hasMore then
    let p := resp.getD { nodes := [], hasNextPage := false, endCursor := none }
    ({ hasMore := p.hasNextPage, cursor := p.endCursor }, p.nodes)
  else (st, [])

/-- One round of the fetch loop after the combined query returned: iterate
over the aliases in order (the source iterates active_aliases, which lists
the active aliases in alias order; inactive aliases are skipped, which
procAlias reproduces), updating each state and appending each active
alias's nodes to the accumulator in that order.  The response is a
positionally aligned list of optional pages; a missing entry behaves as a
missing alias key in the response dict. -/
def processRound : List (AliasSt κ) → List (Option (Page α κ)) → List (AliasSt κ) × List α
  | [], _ => ([], [])
  | st :: sts, [] =>
    let pr := procAlias st none
    let rest := processRound sts []
    (pr.1 :: rest.1, pr.2 ++ rest.2)
  | st :: sts, r :: resps =>
    let pr := procAlias st r
    let rest := processRound sts resps
    (pr.1 :: rest.1, pr.2 ++ rest.2)

/-- The indices of the aliases the source's list comprehension
active_aliases selects: those whose alias_has_more_map entry is true.
The combined query of a round contains exactly one aliased sub-query per
member of this set. -/
def activeIdx (sts : List (AliasSt κ)) : List Nat :=
  (List.range sts.length).filter (fun i => ((sts[i]?).map AliasSt.hasMore).getD false)

/-- The page index an ideal upstream serves for a cursor: a null cursor
requests page 0 and the cursor some k requests page k + 1. -/
def nextIdx : Option Nat → Nat
  | none => 0
  | some k => k + 1

/-- Ideal upstream for one alias group: the group's pages are given as the
list of their node lists; the served page holds the nodes at the cursor's
index, reports hasNextPage exactly when a further page exists, and
returns the index of the served page as the end cursor. -/
def servePage (g : List (List α)) (cursor : Option Nat) : Page α Nat :=
  let idx := nextIdx cursor
  { nodes := (g[idx]?).getD []
    hasNextPage := decide (idx + 1 < g.length)
    endCursor := some idx }

/-- The response of the ideal upstream to one combined query: each active
alias receives its served page; inactive aliases are not part of the query
and receive nothing. -/
def serveAll (groups : List (List (List α))) (sts : List (AliasSt Nat)) :
    List (Option (Page α Nat)) :=
  List.zipWith (fun g st => if st.hasMore then some (servePage g st.cursor) else none)
    groups sts

/-- One full round against the ideal upstream: build and send the combined
query for the current state, then process the response. -/
def fetchRound (groups : List (List (List α))) (sts : List (AliasSt Nat)) :
    List (AliasSt Nat) × List α :=
  processRound sts (serveAll groups sts)

/-- The initial loop state of get_partner_third_party_data: every alias has
alias_has_more_map = true and alias_cursor_map = null. -/
def initSts (n : Nat) : List (AliasSt Nat) :=
  List.replicate n { hasMore := true, cursor := none }

/-- The while loop of get_partner_third_party_data against the ideal
upstream, with fuel bounding the number of rounds: while some alias has
more data, run one round and append its nodes to the accumulator.  The
result carries the final state, the accumulator, and the number of rounds
the loop executed. -/
def fetchLoop (groups : List (List (List α))) :
    Nat → List (AliasSt Nat) → List α → List (AliasSt Nat) × List α × Nat
  | 0, sts, acc => (sts, acc, 0)
  | fuel + 1, sts, acc =>
    if sts.any (fun st => st.hasMore) then
      let rd := fetchRound groups sts
      let rest := fetchLoop groups fuel rd.1 (acc ++ rd.2)
      (rest.1, rest.2.1, rest.2.2 + 1)
    else (sts, acc, 0)

/-- Embedding of get_partner_third_party_data run against the ideal
upstream: the third_party_data_list accumulator after the loop. -/
def get_partner_third_party_data (groups : List (List (List α))) (fuel : Nat) : List α :=
  (fetchLoop groups fuel (initSts groups.length) []).2.1

/-! ### Specification-side descriptions of the loop evolution -/

/-- The maximum page count across all alias groups. -/
def maxPages (groups : List (List (List α))) : Nat :=
  (groups.map List.length).foldr max 0

/-- The per-alias state after r rounds against the ideal upstream: the
alias has more data exactly while fewer rounds than its page count have
run, and its cursor names the last served page. -/
def stAt (g : List (List α)) (r : Nat) : AliasSt Nat :=
  { hasMore := decide (r < g.length)
    cursor := if r = 0 then none else some (min r g.length - 1) }

/-- The whole loop state after r rounds against the ideal upstream. -/
def stateAt (groups : List (List (List α))) (r : Nat) : List (AliasSt Nat) :=
  groups.map (fun g => stAt g r)

/-- The nodes appended during round r: in alias order, the r-th page of
every group that still has an r-th page. -/
def roundNodes (groups : List (List (List α))) (r : Nat) : List α :=
  (groups.map (fun g => if r < g.length then (g[r]?).getD [] else [])).flatten

/-- The round-major, alias-order-within-round concatenation of the first m
rounds' pages. -/
def specAcc (groups : List (List (List α))) (m : Nat) : List α :=
  ((List.range m).map (roundNodes groups)).flatten

/-! ## Rounds with arbitrary responses (for the state-machine invariants) -/

/-- The fetch loop driven by an arbitrary per-round response sequence, one
response list per round, stopping when the while guard fails or the
response sequence ends. -/
def runRounds : List (List (Option (Page α κ))) → List (AliasSt κ) →
    List (AliasSt κ) × List α
  | [], sts => (sts, [])
  | resps :: rest, sts =>
    if sts.any (fun st => st.hasMore) then
      let rd := processRound sts resps
      let rec' := runRounds rest rd.1
      (rec'.1, rd.2 ++ rec'.2)
    else (sts, [])

/-- The loop states runRounds passes through, starting with the initial
one: the state at the top of each executed round, and the state in which
the loop stops. -/
def statesTrace : List (List (Option (Page α κ))) → List (AliasSt κ) →
    List (List (AliasSt κ))
  | [], sts => [sts]
  | resps :: rest, sts =>
    if sts.any (fun st => st.hasMore) then
      sts :: statesTrace rest (processRound sts resps).1
    else [sts]

/-! ## Orchestrator: query_partner_third_party_data -/

/-- The errors that abort a whole run of the orchestrator. -/
inductive RunError where
  | invalidArgument (e : PyError)
  | retryExhausted (e : RetryErr)
deriving DecidableEq, Repr

/-- The for loop of query_partner_third_party_data over the outer chunks:
inner-partition the chunk into alias groups, fetch the chunk's data (the
fetch oracle models get_partner_third_party_data with its network calls,
whose retry wrapper may raise), and accumulate.  A raised exception
propagates immediately, aborting the loop. -/
def runChunks (fetch : List (List String) → Except RetryErr (List α))
    (innerSize : Int) : List (List String) → Except RunError (List α)
  | [] => .ok []
  | c :: cs =>
    match partition_list c innerSize with
    | .error e => .error (.invalidArgument e)
    | .ok groups =>
      match fetch groups with
      | .error e => .error (.retryExhausted e)
      | .ok xs =>
        match runChunks fetch innerSize cs with
        | .error e => .error e
        | .ok ys => .ok (xs ++ ys)

/-- Embedding of query_partner_third_party_data: outer-partition the
provider ids, run every chunk's fetch, and only when the loop finishes
write the accumulated list to the output file.  A returned .ok l models
the file being written with contents l; a returned .error models the
exception propagating out with no file written and the accumulated
records discarded. -/
def query_partner_third_party_data (providers : List String)
    (outerSize innerSize : Int)
    (fetch : List (List String) → Except RetryErr (List α)) : Except RunError (List α) :=
  match partition_list providers outerSize with
  | .error e => .error (.invalidArgument e)
  | .ok chunks => runChunks fetch innerSize chunks

/-! # Lemmas about the partitioner -/

/-- Helper bound for the length-based inductions over chunking. -/
lemma drop_len_le (a : α) (l : List α) (m L : Nat)
    (hl : (a :: l).length ≤ L + 1) : (l.drop m).length ≤ L := by
  simp only [List.length_drop]
  simp only [List.length_cons] at hl
  omega

/-- The slicing comprehension of partition_list agrees with the recursive
chunking function, for any chunk size m + 1. -/
lemma pyChunks_eq_chunksAux (m : Nat) :
    ∀ (L : Nat) (l : List α), l.length ≤ L →
      (List.range ((l.length + m) / (m + 1))).map
          (fun k => (l.drop (k * (m + 1))).take (m + 1)) =
        chunksAux m l := by
  intro L
  induction L with
  | zero =>
    intro l hl
    have hnil : l = [] := List.eq_nil_of_length_eq_zero (Nat.le_zero.mp hl)
    subst hnil
    have h0 : m / (m + 1) = 0 := Nat.div_eq_of_lt (by omega)
    simp [h0, chunksAux]
  | succ L ih =>
    intro l hl
    match l with
    | [] =>
      have h0 : m / (m + 1) = 0 := Nat.div_eq_of_lt (by omega)
      simp [h0, chunksAux]
    | a :: l =>
      have hcount : ((a :: l).length + m) / (m + 1) = l.length / (m + 1) + 1 := by
        have : (a :: l).length + m = l.length + (m + 1) := by
          simp [List.length_cons]; omega
        rw [this, Nat.add_div_right _ (by omega)]
      have hcount' : ((l.drop m).length + m) / (m + 1) = l.length / (m + 1) := by
        rcases Nat.le_total m l.length with h | h
        · simp [List.length_drop, Nat.sub_add_cancel h]
        · have h1 : (l.drop m).length = 0 := by simp [List.length_drop]; omega
          have h2 : l.length / (m + 1) = 0 := Nat.div_eq_of_lt (by omega)
          rw [h1, h2, Nat.zero_add]
          exact Nat.div_eq_of_lt (by omega)
      rw [hcount, List.range_succ_eq_map, List.map_cons, List.map_map]
      have hhead : ((a :: l).drop (0 * (m + 1))).take (m + 1) = a :: l.take m := by
        simp
      have htail :
          (List.range (l.length / (m + 1))).map
              ((fun k => ((a :: l).drop (k * (m + 1))).take (m + 1)) ∘ Nat.succ) =
            chunksAux m (l.drop m) := by
        rw [← hcount', ← ih (l.drop m) (drop_len_le a l m L hl)]
        rw [hcount']
        apply List.map_congr_left
        intro k _
        simp only [Function.comp_apply]
        have hdrop : (l.drop m).drop (k * (m + 1)) =
            (a :: l).drop (k * (m + 1) + (m + 1)) := by
          rw [List.drop_drop]
          have harith : k * (m + 1) + (m + 1) = (m + k * (m + 1)) + 1 := by omega
          rw [harith, List.drop_succ_cons]
        rw [Nat.succ_mul, ← hdrop]
      rw [hhead, htail, chunksAux]

/-- Concatenating the chunks in order reconstructs the input list. -/
lemma chunksAux_flatten (m : Nat) : ∀ (L : Nat) (l : List α), l.length ≤ L →
    (chunksAux m l).flatten = l := by
  intro L
  induction L with
  | zero =>
    intro l hl
    have hnil : l = [] := List.eq_nil_of_length_eq_zero (Nat.le_zero.mp hl)
    subst hnil
    simp [chunksAux]
  | succ L ih =>
    intro l hl
    match l with
    | [] => simp [chunksAux]
    | a :: l =>
      rw [chunksAux, List.flatten_cons, ih (l.drop m) (drop_len_le a l m L hl)]
      simp [List.take_append_drop]

/-- The chunking of a nonempty list is nonempty. -/
lemma chunksAux_eq_nil_iff (m : Nat) (l : List α) : chunksAux m l = [] ↔ l = [] := by
  cases l with
  | nil => simp [chunksAux]
  | cons a l => simp [chunksAux]

/-- Every chunk except possibly the last has length exactly m + 1. -/
lemma chunksAux_dropLast_length (m : Nat) : ∀ (L : Nat) (l : List α), l.length ≤ L →
    ∀ c ∈ (chunksAux m l).dropLast, c.length = m + 1 := by
  intro L
  induction L with
  | zero =>
    intro l hl
    have hnil : l = [] := List.eq_nil_of_length_eq_zero (Nat.le_zero.mp hl)
    subst hnil
    simp [chunksAux]
  | succ L ih =>
    intro l hl c hc
    match l with
    | [] => simp [chunksAux] at hc
    | a :: l =>
      rw [chunksAux] at hc
      rcases hrest : chunksAux m (l.drop m) with _ | ⟨r, rs⟩
      · rw [hrest] at hc
        simp at hc
      · rw [hrest, List.dropLast_cons₂, List.mem_cons] at hc
        have hm : m < l.length := by
          have : l.drop m ≠ [] := by
            intro hdn
            rw [hdn, chunksAux] at hrest
            exact (List.cons_ne_nil r rs) hrest.symm
          have := List.length_drop m l ▸ List.length_pos.mpr this
          omega
        rcases hc with hc | hc
        · subst hc
          simp [List.length_take, Nat.min_eq_left (Nat.le_of_lt hm)]
        · exact ih (l.drop m) (drop_len_le a l m L hl) c (hrest ▸ hc)

/-! # Claim theorems about the partitioner -/

/-- C7: for every sequence S and every positive size N, partition_list
succeeds and its result ps satisfies: the concatenation of ps is S; every
partition except possibly the last has length exactly N; ps has
ceil(len(S) / N) elements (written (len(S) + N - 1) / N in natural
division); and the empty input yields the empty list of partitions. -/
theorem partition_list_spec (S : List α) (N : Int) (hN : 0 < N) :
    ∃ ps, partition_list S N = .ok ps ∧
      ps.flatten = S ∧
      (∀ c ∈ ps.dropLast, (c.length : Int) = N) ∧
      ps.length = (S.length + N.toNat - 1) / N.toNat ∧
      (S = [] → ps = []) := by
  have hle : ¬ N ≤ 0 := by omega
  have hpos : 0 < N.toNat := by omega
  obtain ⟨m, hm⟩ : ∃ m, N.toNat = m + 1 := ⟨N.toNat - 1, by omega⟩
  refine ⟨_, by rw [partition_list, if_neg hle], ?_, ?_, ?_, ?_⟩
  · have hn1 : S.length + N.toNat - 1 = S.length + m := by omega
    rw [hn1, hm, pyChunks_eq_chunksAux m S.length S le_rfl,
      chunksAux_flatten m S.length S le_rfl]
  · intro c hc
    have hn1 : S.length + N.toNat - 1 = S.length + m := by omega
    rw [hn1, hm, pyChunks_eq_chunksAux m S.length S le_rfl] at hc
    have := chunksAux_dropLast_length m S.length S le_rfl c hc
    have hcast : (c.length : Int) = ((m + 1 : Nat) : Int) := by rw [this]
    rw [hcast, ← hm, Int.toNat_of_nonneg (by omega)]
  · simp
  · intro hS
    subst hS
    have h0 : (N.toNat - 1) / N.toNat = 0 := Nat.div_eq_of_lt (by omega)
    simp [h0]

/-- C7 witness at a concrete input. -/
theorem partition_list_spec_check :
    (0 : Int) < 2 ∧
      ∃ ps, partition_list ([3, 1, 4, 1, 5] : List Nat) 2 = .ok ps ∧
        ps.flatten = [3, 1, 4, 1, 5] ∧
        (∀ c ∈ ps.dropLast, (c.length : Int) = 2) ∧
        ps.length = (([3, 1, 4, 1, 5] : List Nat).length + (2 : Int).toNat - 1) / (2 : Int).toNat ∧
        (([3, 1, 4, 1, 5] : List Nat) = [] → ps = []) :=
  ⟨by decide, partition_list_spec [3, 1, 4, 1, 5] 2 (by decide)⟩

/-- C8: partition_list fails with the ValueError (the InvalidArgument of
the specification taxonomy) exactly when the size is not positive; for a
positive size it returns normally for every input. -/
theorem partition_list_error_iff (items : List α) (size : Int) :
    (∃ e, partition_list items size = .error e) ↔ size ≤ 0 := by
  unfold partition_list
  by_cases h : size ≤ 0
  · simp [h]
  · simp [h]

/-! # Claim theorems about provider discovery -/

/-- C10: provider discovery returns each distinct provider id at most once
(the result list has no duplicates), and a string is returned exactly when
some node carries it as its id and it is truthy (not the empty string);
nodes with a missing, null or empty id are silently excluded.  Because the
source collects ids with Python set semantics the order of the returned
list is unspecified, so only these order-independent properties are
asserted. -/
theorem get_user_third_party_data_providers_spec (nodes : List ProviderNode) :
    (get_user_third_party_data_providers nodes).Nodup ∧
      ∀ s, s ∈ get_user_third_party_data_providers nodes ↔
        ((∃ node ∈ nodes, node.id = some s) ∧ s ≠ "") := by
  refine ⟨List.nodup_dedup _, fun s => ?_⟩
  simp [get_user_third_party_data_providers, List.mem_dedup, List.mem_filter,
    List.mem_filterMap]

/-! # Claim theorems about the transport -/

/-- C4 counterexample: for a response whose body is malformed (nonempty
but not valid JSON), execute_gql_request raises a JSON decode error
instead of returning data as the empty dict with an empty error list, so
the claim fails at this input even when the failure is HTTP-level
(ok = false). -/
theorem execute_gql_request_raises_on_malformed :
    execute_gql_request false .malformed = .error .jsonDecodeError := rfl

/-- C4 amended: execute_gql_request never raises when the body is empty or
a JSON object, whatever the HTTP status: an empty body yields data as the
empty dict and an empty error list, and a JSON-object body yields its
data and errors fields with those same defaults; the HTTP flag is passed
through unchanged, so failure is signaled only by ok = false together
with the raw error list.  Only a malformed body (or a non-object JSON
body) raises. -/
theorem execute_gql_request_ok_when_parseable :
    (∀ ok : Bool, execute_gql_request ok .empty =
      .ok (ok, { data := .obj [], errors := .arr [] })) ∧
    (∀ (ok : Bool) (fields : List (String × Json)),
      execute_gql_request ok (.json (.obj fields)) =
        .ok (ok, { data := lookupD fields "data" (.obj [])
                   errors := lookupD fields "errors" (.arr []) })) := by
  exact ⟨fun ok => rfl, fun ok fields => rfl⟩

/-! # Claim theorems about the retry wrapper -/

/-- C1: contrary to the claim, a response with ok = true whose data dict
lacks the top-level "partner" key is not treated as a transport failure:
execute_with_retries returns after a single transport call, consuming no
retry attempt, and its return value is the default empty mapping.  This
contradicts the intent documented in the source (the except branch prints
a retry message for exactly this situation) and in the specification, so
the code is in error at this input. -/
theorem execute_with_retries_returns_empty_on_missing_field :
    execute_with_retries (fun _ => (true, RData.dict (β := Nat) none)) "P1" 3 =
      (.ok none, 1) := rfl

/-- When no attempt from try_count onward succeeds, the loop consumes its
whole remaining budget, one transport call per iteration, and raises the
exhausted error. -/
lemma execute_with_retries_aux_allfail (transport : Nat → Bool × RData β)
    (pid : String) (mr : Nat) :
    ∀ (fuel t : Nat), t ≤ mr → t + fuel = mr + 1 →
      (∀ n, t ≤ n → n ≤ mr → ¬ succAt transport n) →
      execute_with_retries_aux transport pid mr t fuel =
        (.error (.exhausted pid mr), fuel) := by
  intro fuel
  induction fuel with
  | zero => intro t ht hsum hfail; omega
  | succ fuel ih =>
    intro t ht hsum hfail
    have hnot := hfail t le_rfl ht
    rcases htr : transport t with ⟨rs, rd⟩
    have hstep :
        (if t + 1 > mr then ((.error (.exhausted pid mr) : Except RetryErr (Option β)), 1)
         else
           let pr := execute_with_retries_aux transport pid mr (t + 1) fuel
           (pr.1, pr.2 + 1)) =
          (.error (.exhausted pid mr), fuel + 1) := by
      by_cases hlast : t + 1 > mr
      · have hfuel : fuel = 0 := by omega
        rw [if_pos hlast, hfuel]
      · rw [if_neg hlast]
        have := ih (t + 1) (by omega) (by omega)
          (fun n hn1 hn2 => hfail n (by omega) hn2)
        simp [this]
    cases rs with
    | false => rw [execute_with_retries_aux]; simp only [htr]; simpa using hstep
    | true =>
      cases rd with
      | dict p => exact absurd ⟨by rw [htr], p, by rw [htr]⟩ hnot
      | nonDict => rw [execute_with_retries_aux]; simp only [htr]; simpa using hstep

/-- When the first successful attempt at or after try_count is attempt j
within budget, the loop makes one transport call per attempt up to and
including j and returns the extracted partner field of attempt j. -/
lemma execute_with_retries_aux_firstSucc (transport : Nat → Bool × RData β)
    (pid : String) (mr : Nat) :
    ∀ (fuel t j : Nat) (p : Option β), t + fuel = mr + 1 → t ≤ j → j ≤ mr →
      (transport j).1 = true → (transport j).2 = RData.dict p →
      (∀ i, t ≤ i → i < j → ¬ succAt transport i) →
      execute_with_retries_aux transport pid mr t fuel = (.ok p, j + 1 - t) := by
  intro fuel
  induction fuel with
  | zero => intro t j p hsum htj hj _ _ _; omega
  | succ fuel ih =>
    intro t j p hsum htj hj hok hdict hmin
    rcases Nat.eq_or_lt_of_le htj with heq | hlt
    · subst heq
      rcases htr : transport t with ⟨rs, rd⟩
      rw [htr] at hok hdict
      subst hok
      subst hdict
      rw [execute_with_retries_aux]
      simp only [htr]
      simp
    · have hnot := hmin t le_rfl hlt
      rcases htr : transport t with ⟨rs, rd⟩
      have hstep :
          (if t + 1 > mr then ((.error (.exhausted pid mr) : Except RetryErr (Option β)), 1)
           else
             let pr := execute_with_retries_aux transport pid mr (t + 1) fuel
             (pr.1, pr.2 + 1)) =
            (.ok p, j + 1 - t) := by
        have hlast : ¬ t + 1 > mr := by omega
        rw [if_neg hlast]
        have := ih (t + 1) j p (by omega) (by omega) hj hok hdict
          (fun i hi1 hi2 => hmin i (by omega) hi2)
        simp [this]
        omega
      cases rs with
      | false => rw [execute_with_retries_aux]; simp only [htr]; simpa using hstep
      | true =>
        cases rd with
        | dict q => exact absurd ⟨by rw [htr], q, by rw [htr]⟩ hnot
        | nonDict => rw [execute_with_retries_aux]; simp only [htr]; simpa using hstep

/-- C3: the retry wrapper makes exactly min(k, max_retries + 1) transport
calls, where k counts the first attempt on which extraction can return.
If no attempt within the budget succeeds it makes exactly max_retries + 1
calls and raises the terminal error naming the partner id and the retry
bound; if the first success is attempt j (0-indexed, j <= max_retries) it
makes exactly j + 1 calls and immediately returns the extracted field of
that attempt. -/
theorem execute_with_retries_call_count (transport : Nat → Bool × RData β)
    (pid : String) (mr : Nat) :
    ((∀ n, n ≤ mr → ¬ succAt transport n) →
      execute_with_retries transport pid mr =
        (.error (.exhausted pid mr), mr + 1)) ∧
    (∀ j, j ≤ mr → succAt transport j → (∀ i, i < j → ¬ succAt transport i) →
      ∃ p, (transport j).2 = RData.dict p ∧
        execute_with_retries transport pid mr = (.ok p, j + 1)) := by
  constructor
  · intro hfail
    exact execute_with_retries_aux_allfail transport pid mr (mr + 1) 0
      (Nat.zero_le mr) (by omega) (fun n _ hn => hfail n hn)
  · intro j hj hsucc hmin
    obtain ⟨hok, p, hdict⟩ := hsucc
    refine ⟨p, hdict, ?_⟩
    have := execute_with_retries_aux_firstSucc transport pid mr (mr + 1) 0 j p
      (by omega) (Nat.zero_le j) hj hok hdict (fun i _ hi => hmin i hi)
    simpa using this

/-- C3 witness: an always-failing transport exhausts the budget with
exactly max_retries + 1 calls. -/
theorem execute_with_retries_call_count_check :
    execute_with_retries (fun _ => (false, RData.nonDict (β := Nat))) "P1" 3 =
      (.error (.exhausted "P1" 3), 4) :=
  (execute_with_retries_call_count (fun _ => (false, RData.nonDict (β := Nat))) "P1" 3).1
    (fun n _ h => by simp [succAt] at h)

/-! # Lemmas about one round of the fetch loop -/

/-- The state list that a round produces is indexed like the input state
list: entry i is the procAlias update of entry i under response entry i,
a missing response entry acting as a missing alias key. -/
lemma processRound_getElem? (sts : List (AliasSt κ)) (resps : List (Option (Page α κ)))
    (i : Nat) :
    (processRound sts resps).1[i]? =
      (sts[i]?).map (fun st => (procAlias st ((resps[i]?).getD none)).1) := by
  induction sts generalizing resps i with
  | nil => simp [processRound]
  | cons st sts ih =>
    cases resps with
    | nil =>
      cases i with
      | zero => simp [processRound]
      | succ i => simpa [processRound] using ih [] i
    | cons r resps =>
      cases i with
      | zero => simp [processRound]
      | succ i => simpa [processRound] using ih resps i

/-- Membership in the active index set of a state list. -/
lemma mem_activeIdx (sts : List (AliasSt κ)) (i : Nat) :
    i ∈ activeIdx sts ↔ ∃ st, sts[i]? = some st ∧ st.hasMore = true := by
  unfold activeIdx
  rw [List.mem_filter, List.mem_range]
  constructor
  · rintro ⟨hlt, hval⟩
    cases h : sts[i]? with
    | none => rw [h] at hval; simp at hval
    | some st =>
      refine ⟨st, rfl, ?_⟩
      rw [h] at hval
      simpa using hval
  · rintro ⟨st, hst, hmore⟩
    have hlt : i < sts.length := by
      by_contra hge
      rw [List.getElem?_eq_none (by omega)] at hst
      cases hst
    refine ⟨hlt, ?_⟩
    rw [hst]
    simpa using hmore

/-- An alias whose entry is inactive is not in the active set. -/
lemma not_mem_activeIdx (sts : List (AliasSt κ)) (i : Nat) (st : AliasSt κ)
    (hst : sts[i]? = some st) (hmore : st.hasMore = false) : i ∉ activeIdx sts := by
  rw [mem_activeIdx]
  rintro ⟨st', hst', hmore'⟩
  rw [hst] at hst'
  cases hst'
  rw [hmore] at hmore'
  cases hmore'

/-- An inactive alias is not visited by the response-processing loop, so
one round leaves its state entry untouched. -/
lemma processRound_preserves_inactive (sts : List (AliasSt κ))
    (resps : List (Option (Page α κ))) (i : Nat) (st : AliasSt κ)
    (hst : sts[i]? = some st) (hmore : st.hasMore = false) :
    (processRound sts resps).1[i]? = some st := by
  rw [processRound_getElem?, hst]
  simp [procAlias, hmore]

/-! # Claim theorems about per-round alias state -/

/-- C5 counterexample: a round's response can set an alias's end cursor to
null while reporting hasNextPage = true; the alias's new state then has a
null cursor and the alias still appears in the active set of the next
round, contradicting the claim at this concrete input. -/
theorem processRound_null_cursor_keeps_alias_active :
    ((processRound (α := Nat) (κ := Nat) [{ hasMore := true, cursor := some 7 }]
        [some { nodes := [0], hasNextPage := true, endCursor := none }]).1 =
      [{ hasMore := true, cursor := none }]) ∧
    0 ∈ activeIdx (processRound (α := Nat) (κ := Nat)
        [{ hasMore := true, cursor := some 7 }]
        [some { nodes := [0], hasNextPage := true, endCursor := none }]).1 := by
  decide

/-- C5 amended: an active alias leaves the active set of the next round
exactly when its response page reports hasNextPage = false; the end
cursor it carries (null or not) has no influence on activity.  In
particular, on a well-behaved final page carrying hasNextPage = false
together with a null end cursor, the alias does not appear in the next
round's active set. -/
theorem processRound_deactivation_iff (sts : List (AliasSt κ))
    (resps : List (Option (Page α κ))) (i : Nat) (st : AliasSt κ) (p : Page α κ)
    (hst : sts[i]? = some st) (hmore : st.hasMore = true)
    (hresp : (resps[i]?).getD none = some p) :
    (processRound sts resps).1[i]? =
        some { hasMore := p.hasNextPage, cursor := p.endCursor } ∧
      (i ∈ activeIdx (processRound sts resps).1 ↔ p.hasNextPage = true) := by
  have hget := processRound_getElem? sts resps i
  rw [hst, hresp] at hget
  simp [procAlias, hmore] at hget
  refine ⟨hget, ?_⟩
  rw [mem_activeIdx]
  constructor
  · rintro ⟨st', hst', hmore'⟩
    rw [hget] at hst'
    cases hst'
    exact hmore'
  · intro h
    exact ⟨_, hget, h⟩

/-- C5 amended witness: one alias whose response carries hasNextPage =
false and a null end cursor is deactivated. -/
theorem processRound_deactivation_iff_check :
    (processRound (α := Nat) (κ := Nat) [{ hasMore := true, cursor := some 2 }]
        [some { nodes := [5], hasNextPage := false, endCursor := none }]).1[0]? =
      some { hasMore := false, cursor := none } :=
  (processRound_deactivation_iff [{ hasMore := true, cursor := some 2 }]
    [some { nodes := [5], hasNextPage := false, endCursor := none }] 0
    { hasMore := true, cursor := some 2 }
    { nodes := [5], hasNextPage := false, endCursor := none } rfl rfl rfl).1

/-- C6: once an alias's has-more flag is false it stays false through
every later round, whatever the responses are: in every state the loop
passes through afterwards the alias keeps the same entry, it is excluded
from the active set from which each round's combined query is built, and
it is still unchanged in the loop's final state. -/
theorem hasMore_false_persistent (resps : List (List (Option (Page α κ))))
    (sts : List (AliasSt κ)) (i : Nat) (st : AliasSt κ)
    (hst : sts[i]? = some st) (hmore : st.hasMore = false) :
    (∀ s ∈ statesTrace resps sts, s[i]? = some st ∧ i ∉ activeIdx s) ∧
      (runRounds resps sts).1[i]? = some st := by
  induction resps generalizing sts with
  | nil =>
    refine ⟨?_, by simpa [runRounds] using hst⟩
    intro s hs
    rw [statesTrace, List.mem_singleton] at hs
    subst hs
    exact ⟨hst, not_mem_activeIdx s i st hst hmore⟩
  | cons rhead rest ih =>
    by_cases hguard : sts.any (fun a => a.hasMore)
    · have hst' := processRound_preserves_inactive sts rhead i st hst hmore
      have hih := ih (processRound sts rhead).1 hst'
      constructor
      · intro s hs
        rw [statesTrace, if_pos hguard, List.mem_cons] at hs
        rcases hs with hs | hs
        · subst hs
          exact ⟨hst, not_mem_activeIdx s i st hst hmore⟩
        · exact hih.1 s hs
      · rw [runRounds, if_pos hguard]
        exact hih.2
    · constructor
      · intro s hs
        rw [statesTrace, if_neg hguard, List.mem_singleton] at hs
        subst hs
        exact ⟨hst, not_mem_activeIdx s i st hst hmore⟩
      · rw [runRounds, if_neg hguard]
        exact hst

/-- C6 witness: an exhausted alias stays unchanged through a concrete
two-round response sequence. -/
theorem hasMore_false_persistent_check :
    (runRounds (α := Nat) (κ := Nat)
        [[some { nodes := [1], hasNextPage := true, endCursor := some 0 }],
         [some { nodes := [2], hasNextPage := false, endCursor := none }]]
        [{ hasMore := false, cursor := some 3 }]).1[0]? =
      some { hasMore := false, cursor := some 3 } :=
  (hasMore_false_persistent
    [[some { nodes := [1], hasNextPage := true, endCursor := some 0 }],
     [some { nodes := [2], hasNextPage := false, endCursor := none }]]
    [{ hasMore := false, cursor := some 3 }] 0
    { hasMore := false, cursor := some 3 } rfl rfl).2

/-! # The fetch loop against the ideal upstream (multi-alias termination) -/

/-- At the start of round r an alias that still has an r-th page holds the
cursor of page r - 1, so the ideal upstream serves it page r. -/
lemma nextIdx_stAt (g : List (List α)) (r : Nat) (hr : r < g.length) :
    nextIdx (stAt g r).cursor = r := by
  by_cases h0 : r = 0
  · subst h0
    simp [stAt, nextIdx]
  · have hmin : min r g.length = r := Nat.min_eq_left (Nat.le_of_lt hr)
    simp [stAt, h0, nextIdx]
    omega

/-- One alias's step of a round: from the state after r rounds, the alias
moves to the state after r + 1 rounds and emits its r-th page (nothing
when it is exhausted). -/
lemma procAlias_stAt (g : List (List α)) (r : Nat) (hgne : g ≠ []) :
    procAlias (stAt g r)
        (if (stAt g r).hasMore then some (servePage g (stAt g r).cursor) else none) =
      (stAt g (r + 1), if r < g.length then (g[r]?).getD [] else []) := by
  have hlen : 0 < g.length := List.length_pos.mpr hgne
  by_cases hr : r < g.length
  · have hmore : (stAt g r).hasMore = true := by simp [stAt, hr]
    have hidx := nextIdx_stAt g r hr
    have hserve : servePage g (stAt g r).cursor =
        { nodes := (g[r]?).getD []
          hasNextPage := decide (r + 1 < g.length)
          endCursor := some r } := by
      simp only [servePage, hidx]
    have hst1 : stAt g (r + 1) =
        { hasMore := decide (r + 1 < g.length), cursor := some r } := by
      have hmin : min (r + 1) g.length = r + 1 := Nat.min_eq_left (by omega)
      simp [stAt, hmin]
    rw [hst1, if_pos hr]
    simp only [procAlias, hmore, if_true, hserve, Option.getD_some]
  · have hmore : (stAt g r).hasMore = false := by simp [stAt, hr]
    have hstEq : stAt g r = stAt g (r + 1) := by
      have hmb : (decide (r < g.length)) = (decide (r + 1 < g.length)) :=
        decide_eq_decide.mpr (by omega)
      have hc : min r g.length - 1 = min (r + 1) g.length - 1 := by
        rw [Nat.min_eq_right (by omega : g.length ≤ r),
          Nat.min_eq_right (by omega : g.length ≤ r + 1)]
      have h0 : ¬ r = 0 := by omega
      have h1 : ¬ r + 1 = 0 := by omega
      simp only [stAt, if_neg h0, if_neg h1]
      rw [hmb, hc]
    rw [← hstEq, if_neg hr]
    simp [procAlias, hmore]

/-- One round of the loop against the ideal upstream maps the state after
r rounds to the state after r + 1 rounds and emits, in alias order, the
r-th page of every group that still has one. -/
lemma fetchRound_stateAt (groups : List (List (List α))) (r : Nat)
    (hg : ∀ g ∈ groups, g ≠ []) :
    fetchRound groups (stateAt groups r) = (stateAt groups (r + 1), roundNodes groups r) := by
  induction groups with
  | nil => simp [fetchRound, stateAt, serveAll, processRound, roundNodes]
  | cons g gs ih =>
    have hg0 : g ≠ [] := hg g (List.mem_cons_self g gs)
    have ihg : ∀ g' ∈ gs, g' ≠ [] := fun g' h => hg g' (List.mem_cons_of_mem g h)
    have iht := ih ihg
    rw [fetchRound] at iht
    have hhead := procAlias_stAt g r hg0
    simp only [fetchRound, stateAt, List.map_cons, serveAll, List.zipWith_cons_cons,
      processRound, roundNodes, List.flatten_cons]
    rw [← stateAt, ← serveAll]
    rw [hhead, iht]
    simp [stateAt, roundNodes]

/-- The while guard of the loop holds at the state after r rounds exactly
when some group still has an r-th page. -/
lemma stateAt_any_hasMore (groups : List (List (List α))) (r : Nat) :
    ((stateAt groups r).any (fun a => a.hasMore) = true) ↔ ∃ g ∈ groups, r < g.length := by
  simp [stateAt, stAt, List.any_eq_true]

/-- Every group's page count is bounded by the maximum page count. -/
lemma le_maxPages (groups : List (List (List α))) (g : List (List α))
    (hg : g ∈ groups) : g.length ≤ maxPages groups := by
  unfold maxPages
  induction groups with
  | nil => cases hg
  | cons h t ih =>
    rw [List.mem_cons] at hg
    rcases hg with hg | hg
    · subst hg
      exact le_max_left _ _
    · exact le_trans (ih hg) (le_max_right _ _)

/-- Below the maximum page count some group still has a page. -/
lemma exists_lt_of_lt_maxPages (groups : List (List (List α))) (r : Nat)
    (hr : r < maxPages groups) : ∃ g ∈ groups, r < g.length := by
  unfold maxPages at hr
  induction groups with
  | nil => simp at hr
  | cons h t ih =>
    rw [List.map_cons, List.foldr_cons, lt_max_iff] at hr
    rcases hr with hr | hr
    · exact ⟨h, List.mem_cons_self h t, hr⟩
    · obtain ⟨g, hg, hlt⟩ := ih hr
      exact ⟨g, List.mem_cons_of_mem h hg, hlt⟩

/-- Running the loop from the state after r rounds with d = maxPages - r
rounds still to go: any fuel of at least d rounds ends in the state after
maxPages rounds, appends exactly rounds r..maxPages-1 to the accumulator
in round-major order, and executes exactly d rounds. -/
lemma fetchLoop_stateAt (groups : List (List (List α))) (hg : ∀ g ∈ groups, g ≠ []) :
    ∀ (d r fuel : Nat) (acc : List α), r + d = maxPages groups → d ≤ fuel →
      fetchLoop groups fuel (stateAt groups r) acc =
        (stateAt groups (maxPages groups),
          acc ++ ((List.range' r d).map (roundNodes groups)).flatten, d) := by
  intro d
  induction d with
  | zero =>
    intro r fuel acc hsum hfuel
    have hr : r = maxPages groups := by omega
    subst hr
    have hguard : (stateAt groups (maxPages groups)).any (fun a => a.hasMore) = false := by
      rw [Bool.eq_false_iff]
      intro h
      obtain ⟨g, hgm, hlt⟩ := (stateAt_any_hasMore groups (maxPages groups)).mp h
      exact absurd (le_maxPages groups g hgm) (by omega)
    cases fuel with
    | zero => simp [fetchLoop]
    | succ fuel => simp [fetchLoop, hguard]
  | succ d ih =>
    intro r fuel acc hsum hfuel
    obtain ⟨f, hf⟩ : ∃ f, fuel = f + 1 := ⟨fuel - 1, by omega⟩
    subst hf
    have hguard : (stateAt groups r).any (fun a => a.hasMore) = true :=
      (stateAt_any_hasMore groups r).mpr
        (exists_lt_of_lt_maxPages groups r (by omega))
    rw [fetchLoop]
    simp only [hguard, if_true, fetchRound_stateAt groups r hg]
    rw [ih (r + 1) f (acc ++ roundNodes groups r) (by omega) (by omega)]
    simp [List.range'_succ, List.append_assoc]

/-- C2: for alias groups with at least one page each, the fetch loop of
get_partner_third_party_data against the ideal upstream, given any fuel
of at least maxPages rounds, executes exactly maxPages groups rounds
(the maximum page count over the groups), ends with every alias
exhausted, and accumulates exactly the union of all pages in round-major
order with alias order within each round. -/
theorem fetchLoop_max_rounds (groups : List (List (List α)))
    (hg : ∀ g ∈ groups, g ≠ []) (fuel : Nat) (hfuel : maxPages groups ≤ fuel) :
    fetchLoop groups fuel (initSts groups.length) [] =
      (stateAt groups (maxPages groups), specAcc groups (maxPages groups),
        maxPages groups) ∧
    get_partner_third_party_data groups fuel = specAcc groups (maxPages groups) := by
  have hinit : initSts groups.length = stateAt groups 0 := by
    unfold initSts stateAt
    symm
    rw [List.eq_replicate_iff]
    refine ⟨by simp, ?_⟩
    intro b hb
    rw [List.mem_map] at hb
    obtain ⟨g, hgm, hgb⟩ := hb
    have : 0 < g.length := List.length_pos.mpr (hg g hgm)
    simp [← hgb, stAt, this]
  have h := fetchLoop_stateAt groups hg (maxPages groups) 0 fuel [] (by omega) hfuel
  rw [hinit]
  constructor
  · rw [h]
    simp [specAcc, List.range_eq_range']
  · rw [get_partner_third_party_data, hinit, h]
    simp [specAcc, List.range_eq_range']

/-- C2 witness: two alias groups with two pages and one page respectively
finish in exactly two rounds with the round-major accumulator. -/
theorem fetchLoop_max_rounds_check :
    fetchLoop ([[[1], [2]], [[3]]] : List (List (List Nat))) 2 (initSts 2) [] =
      (stateAt [[[1], [2]], [[3]]] (maxPages [[[1], [2]], [[3]]]),
        specAcc [[[1], [2]], [[3]]] (maxPages [[[1], [2]], [[3]]]),
        maxPages ([[[1], [2]], [[3]]] : List (List (List Nat)))) :=
  (fetchLoop_max_rounds [[[1], [2]], [[3]]] (by decide) 2 (by decide)).1

/-! # Claim theorems about the orchestrator -/

/-- If the chunk loop finishes normally then every chunk's inner
partitioning and fetch succeeded. -/
lemma runChunks_ok (fetch : List (List String) → Except RetryErr (List α))
    (innerSize : Int) :
    ∀ (cs : List (List String)) (out : List α),
      runChunks fetch innerSize cs = .ok out →
      ∀ c ∈ cs, ∃ groups xs, partition_list c innerSize = .ok groups ∧
        fetch groups = .ok xs := by
  intro cs
  induction cs with
  | nil =>
    intro out _ c hc
    simp at hc
  | cons c cs ih =>
    intro out h c' hc'
    rw [runChunks] at h
    split at h
    · simp at h
    · rename_i groups hp
      split at h
      · simp at h
      · rename_i xs hf
        split at h
        · simp at h
        · rename_i ys hr
          rw [List.mem_cons] at hc'
          rcases hc' with hc' | hc'
          · subst hc'
            exact ⟨groups, xs, hp, hf⟩
          · exact ih ys hr c' hc'

/-- C9: when the fetch of any outer chunk fails terminally, the whole run
aborts with an error: query_partner_third_party_data never reaches its
output-writing step, so no partial results are written and the records
accumulated for earlier chunks are discarded. -/
theorem query_partner_third_party_data_aborts (providers : List String)
    (outerSize innerSize : Int)
    (fetch : List (List String) → Except RetryErr (List α))
    (chunks : List (List String)) (j : Nat) (c : List String)
    (groups : List (List String)) (e : RetryErr)
    (hchunks : partition_list providers outerSize = .ok chunks)
    (hc : chunks[j]? = some c)
    (hgroups : partition_list c innerSize = .ok groups)
    (hfail : fetch groups = .error e) :
    ∃ e', query_partner_third_party_data providers outerSize innerSize fetch =
      .error e' := by
  rw [query_partner_third_party_data, hchunks]
  cases hres : runChunks fetch innerSize chunks with
  | error e' => exact ⟨e', hres⟩
  | ok out =>
    exfalso
    have hlt : j < chunks.length := by
      by_contra hge
      rw [List.getElem?_eq_none (by omega)] at hc
      cases hc
    have hval : chunks[j] = c := by
      rw [List.getElem?_eq_getElem hlt] at hc
      injection hc
    have hmem : c ∈ chunks := List.mem_iff_getElem.mpr ⟨j, hlt, hval⟩
    obtain ⟨g', xs, hp', hf'⟩ := runChunks_ok fetch innerSize chunks out hres c hmem
    rw [hgroups] at hp'
    injection hp' with hgg
    subst hgg
    rw [hfail] at hf'
    cases hf'

/-- C9 witness: with three providers, outer chunk size 2 and a fetch that
fails on the second chunk's alias groups, the run aborts with an error. -/
theorem query_partner_third_party_data_aborts_check :
    ∃ e', query_partner_third_party_data ["a", "b", "c"] 2 1
        (fun gs => if gs = [["c"]] then
            (.error (.exhausted "P1" 3) : Except RetryErr (List Nat))
          else .ok []) =
      .error e' :=
  query_partner_third_party_data_aborts ["a", "b", "c"] 2 1
    (fun gs => if gs = [["c"]] then
        (.error (.exhausted "P1" 3) : Except RetryErr (List Nat))
      else .ok [])
    [["a", "b"], ["c"]] 1 ["c"] [["c"]] (.exhausted "P1" 3)
    rfl rfl rfl rfl

end GQL
